import Mathlib

/-!
Shallow embedding of the construct-boundary recommendation engine
(`cmd/construct_boundary/main.go`) and proofs of its specified properties.

Conventions of the embedding:
* Go `int` values (residue positions, lengths, flags) are modelled as `Int`;
  array lengths and list indices are `Nat`.
* Go `float64` score/confidence arithmetic is modelled over `ℚ`; the program
  only adds, averages and compares these values, so the embedding is exact on
  the comparisons the program performs.
* 1-indexed inclusive residue coordinates are kept exactly as in the source.
-/

/-- Go `rangeInfo` struct (the `Type` field is renamed `Kind`, since `Type`
is reserved in Lean). -/
structure rangeInfo where
  Start : Int
  End : Int
  Name : String
  Kind : String
  Source : String
deriving DecidableEq, Repr

/-- Go `pdbRange` struct. -/
structure pdbRange where
  ID : String
  Start : Int
  End : Int
  Method : String
  Resolution : String
deriving DecidableEq, Repr

/-- Go `evidence` struct. -/
structure evidenceInfo where
  PDBMatch : String
  Domain : String
  AvgPLDDT : ℚ
  DisorderFraction : ℚ
deriving DecidableEq, Repr

/-- Go `candidate` struct. -/
structure candidate where
  Start : Int
  End : Int
  Source : String
  Name : String
  PDBID : String
  Score : ℚ
  Rationale : List String
  Evidence : evidenceInfo
deriving DecidableEq, Repr

/-- Go `boundaryContext` struct. -/
structure boundaryContext where
  Length : Int
  Disorder : List Bool
  PLDDT : List ℚ
  DomainRanges : List rangeInfo
  PDBRanges : List pdbRange
  HelixRanges : List rangeInfo
  StrandRanges : List rangeInfo
  ActiveSites : List rangeInfo
  PTMPositions : List Int

/-- Go method `(c candidate) Length()`. -/
def candidate.Length (c : candidate) : Int :=
  c.End - c.Start + 1

/-- Go `clamp`. -/
def clamp (value minValue maxValue : ℚ) : ℚ :=
  if value < minValue then minValue
  else if value > maxValue then maxValue
  else value

/-- Go `avgWindow`: average of `values[start..end]` (0-indexed, inclusive),
clipping the window to the valid index range and returning 0 for an empty
array or an empty window. -/
def avgWindow (values : List ℚ) (start fin : Int) : ℚ :=
  if values.length = 0 ∨ start > fin then 0
  else
    let s : Int := max 0 start
    let e : Int := min ((values.length : Int) - 1) fin
    if s > e then 0
    else
      let window := (values.drop s.toNat).take (e.toNat - s.toNat + 1)
      window.sum / (window.length : ℚ)

/-- Go `isLoopRegion`: the boundary sits in a low-confidence window flanked by
high-confidence windows on both sides. -/
def isLoopRegion (pos : Int) (plddt : List ℚ) : Bool :=
  if plddt.length = 0 ∨ pos ≤ 2 ∨ pos ≥ (plddt.length : Int) - 2 then false
  else
    let center := avgWindow plddt (pos - 2) (pos + 2)
    let left := avgWindow plddt (max 0 (pos - 8)) (pos - 3)
    let right := avgWindow plddt (pos + 3) (min ((plddt.length : Int) - 1) (pos + 8))
    decide (center < 70 ∧ left > 70 ∧ right > 70)

/-- Go `computeDisorderedRegions`: mask of length `length`, position `i`
(0-indexed) true when `plddt[i] < 50`; all false when no confidence data. -/
def computeDisorderedRegions (plddt : List ℚ) (length : Nat) : List Bool :=
  if plddt.length = 0 ∨ length = 0 then List.replicate length false
  else (List.range length).map (fun i => decide (i < plddt.length ∧ plddt.getD i 0 < 50))

theorem computeDisorderedRegions_length (plddt : List ℚ) (length : Nat) :
    (computeDisorderedRegions plddt length).length = length := by
  unfold computeDisorderedRegions
  split <;> simp

theorem computeDisorderedRegions_getD (plddt : List ℚ) (length : Nat) (i : Nat)
    (hi : i < length) :
    (computeDisorderedRegions plddt length).getD i false =
      decide (i < plddt.length ∧ plddt.getD i 0 < 50) := by
  unfold computeDisorderedRegions
  split
  · rename_i h
    rcases h with h | h
    · have : ¬ (i < plddt.length) := by omega
      simp [List.getD, this]
    · omega
  · simp [List.getD_eq_getElem?_getD, List.getElem?_map, List.getElem?_range hi]

/-- C2: the disorder mask has exactly the requested length; position `i`
(0-indexed) is true iff `i` is within the confidence array and
`confidence[i] < 50`; an empty confidence array yields an all-false mask of
the requested length; and Scenario A holds. -/
theorem computeDisorderedRegions_mask_spec :
    (∀ (plddt : List ℚ) (length : Nat),
        (computeDisorderedRegions plddt length).length = length ∧
        ∀ i, i < length →
          ((computeDisorderedRegions plddt length).getD i false = true ↔
            i < plddt.length ∧ plddt.getD i 0 < 50)) ∧
    (∀ n, computeDisorderedRegions [] n = List.replicate n false) ∧
    computeDisorderedRegions [80, 40, 30, 90, 60, 49] 6 =
      [false, true, true, false, false, true] := by
  refine ⟨fun plddt length => ⟨computeDisorderedRegions_length _ _, fun i hi => ?_⟩,
    fun n => ?_, ?_⟩
  · rw [computeDisorderedRegions_getD _ _ _ hi]
    simp
  · unfold computeDisorderedRegions
    simp
  · decide

theorem computeDisorderedRegions_mask_spec_witness :
    (computeDisorderedRegions [(80 : ℚ), 40] 2).length = 2 ∧
    ((computeDisorderedRegions [(80 : ℚ), 40] 2).getD 1 false = true ↔
      1 < ([(80 : ℚ), 40]).length ∧ ([(80 : ℚ), 40]).getD 1 0 < 50) :=
  ⟨(computeDisorderedRegions_mask_spec.1 [(80 : ℚ), 40] 2).1,
   (computeDisorderedRegions_mask_spec.1 [(80 : ℚ), 40] 2).2 1 (by decide)⟩

/-- C3 counterexample: for the non-empty confidence array `[40]` and requested
length 3, the mask has length 3, not `min (len confidence) 3 = 1` as the claim
asserts. -/
theorem disorder_mask_length_counterexample :
    ([(40 : ℚ)] ≠ []) ∧
    (computeDisorderedRegions [(40 : ℚ)] 3).length = 3 ∧
    min ([(40 : ℚ)].length) 3 = 1 ∧
    (computeDisorderedRegions [(40 : ℚ)] 3).length ≠ min ([(40 : ℚ)].length) 3 := by
  decide

/-- C3 (amended): for every confidence array, the disorder mask has length
equal to the requested sequence length, and every position at or beyond the
confidence array's length is false (disorder computation stops at the shorter
of the two lengths). -/
theorem disorder_mask_length_always_requested :
    ∀ (plddt : List ℚ) (length : Nat),
      (computeDisorderedRegions plddt length).length = length ∧
      ∀ i, plddt.length ≤ i →
        (computeDisorderedRegions plddt length).getD i false = false := by
  intro plddt length
  refine ⟨computeDisorderedRegions_length _ _, fun i hge => ?_⟩
  by_cases hi : i < length
  · rw [computeDisorderedRegions_getD _ _ _ hi, decide_eq_false_iff_not]
    rintro ⟨h1, -⟩
    omega
  · apply List.getD_eq_default
    rw [computeDisorderedRegions_length]
    omega

theorem disorder_mask_length_always_requested_witness :
    (computeDisorderedRegions [(40 : ℚ)] 3).length = 3 ∧
    (computeDisorderedRegions [(40 : ℚ)] 3).getD 2 false = false :=
  ⟨(disorder_mask_length_always_requested [(40 : ℚ)] 3).1,
   (disorder_mask_length_always_requested [(40 : ℚ)] 3).2 2 (by decide)⟩

theorem avgWindow_eq_zero_of_gt (values : List ℚ) (start fin : Int) (h : start > fin) :
    avgWindow values start fin = 0 := by
  unfold avgWindow
  rw [if_pos (Or.inr h)]

/-- C7: for a non-empty confidence array, the +20 loop-like-region signal
triggers exactly when the ±2 window around the boundary averages below 70 and
the 6-residue windows on both outer flanks average above 70 (the source's
explicit position guards are subsumed by the flank conditions, since a flank
window that is empty averages 0). -/
theorem loop_region_iff_window_averages :
    ∀ (plddt : List ℚ) (pos : Int), plddt ≠ [] →
      (isLoopRegion pos plddt = true ↔
        (avgWindow plddt (pos - 2) (pos + 2) < 70 ∧
         avgWindow plddt (max 0 (pos - 8)) (pos - 3) > 70 ∧
         avgWindow plddt (pos + 3) (min ((plddt.length : Int) - 1) (pos + 8)) > 70)) := by
  intro plddt pos hne
  unfold isLoopRegion
  by_cases hg : plddt.length = 0 ∨ pos ≤ 2 ∨ pos ≥ (plddt.length : Int) - 2
  · rw [if_pos hg]
    simp only [Bool.false_eq_true, false_iff]
    rintro ⟨hc, hl, hr⟩
    have hlen : plddt.length ≠ 0 := by simpa using hne
    rcases hg with h0 | h2 | hgt
    · exact hlen h0
    · have hz : avgWindow plddt (max 0 (pos - 8)) (pos - 3) = 0 :=
        avgWindow_eq_zero_of_gt _ _ _ (by omega)
      rw [hz] at hl
      norm_num at hl
    · have hz : avgWindow plddt (pos + 3) (min ((plddt.length : Int) - 1) (pos + 8)) = 0 :=
        avgWindow_eq_zero_of_gt _ _ _ (by omega)
      rw [hz] at hr
      norm_num at hr
  · rw [if_neg hg]
    simp only [decide_eq_true_eq]

theorem loop_region_iff_window_averages_witness :
    ([(80 : ℚ)] ≠ []) ∧
    (isLoopRegion 1 [(80 : ℚ)] = true ↔
      (avgWindow [(80 : ℚ)] (1 - 2) (1 + 2) < 70 ∧
       avgWindow [(80 : ℚ)] (max 0 (1 - 8)) (1 - 3) > 70 ∧
       avgWindow [(80 : ℚ)] (1 + 3) (min (((List.length [(80 : ℚ)]) : Int) - 1) (1 + 8)) > 70)) :=
  ⟨by decide, loop_region_iff_window_averages [(80 : ℚ)] 1 (by decide)⟩

/-- Shared loop of Go `compressDisorder` and `orderedRanges`: walk the mask,
opening a run at the first index whose flag equals `pol` and emitting it at
the first index whose flag differs (or at the end of the mask). `i` is the
0-indexed position of the head of `rest`; `start` is the 1-indexed start of
the currently open run, with 0 meaning no run is open (as in the source). -/
def compressRunsAux (pol : Bool) (kind source : String) :
    List Bool → Nat → Nat → List rangeInfo
  | [], i, start =>
    if start ≠ 0 then [⟨(start : Int), (i : Int), "", kind, source⟩] else []
  | flag :: rest, i, start =>
    let start1 := if flag = pol ∧ start = 0 then i + 1 else start
    if flag ≠ pol ∧ start1 ≠ 0 then
      ⟨(start1 : Int), (i : Int), "", kind, source⟩ ::
        compressRunsAux pol kind source rest (i + 1) 0
    else
      compressRunsAux pol kind source rest (i + 1) start1

/-- Go `compressDisorder`: maximal runs of `true` as 1-indexed ranges. -/
def compressDisorder (disorder : List Bool) : List rangeInfo :=
  compressRunsAux true "disorder" "pLDDT" disorder 0 0

/-- Go `orderedRanges`: maximal runs of `false` as 1-indexed ranges. -/
def orderedRanges (disordered : List Bool) : List rangeInfo :=
  compressRunsAux false "ordered" "pLDDT" disordered 0 0

/-- 1-indexed position `p` lies inside range `r`. -/
def coversPos (p : Nat) (r : rangeInfo) : Bool :=
  decide (r.Start ≤ (p : Int) ∧ (p : Int) ≤ r.End)

theorem coversPos_natCast (p a b : Nat) (nm k s : String) :
    (coversPos p ⟨(a : Int), (b : Int), nm, k, s⟩ = true) ↔ (a ≤ p ∧ p ≤ b) := by
  simp [coversPos]

/-- Number of times 1-indexed position `p` is covered by the part of the mask
`rest` that starts at 0-indexed position `i`, counting only entries whose
flag equals `pol`. -/
def runHit (pol : Bool) (rest : List Bool) (i p : Nat) : Nat :=
  if i < p ∧ p ≤ i + rest.length ∧ rest.getD (p - i - 1) (!pol) = pol then 1 else 0

theorem runHit_nil (pol : Bool) (i p : Nat) : runHit pol [] i p = 0 := by
  unfold runHit
  rw [if_neg]
  rintro ⟨h1, h2, -⟩
  simp at h2
  omega

theorem runHit_cons (pol flag : Bool) (rest : List Bool) (i p : Nat) :
    runHit pol (flag :: rest) i p =
      (if p = i + 1 ∧ flag = pol then 1 else 0) + runHit pol rest (i + 1) p := by
  unfold runHit
  by_cases hp1 : p = i + 1
  · subst hp1
    have e0 : i + 1 - i - 1 = 0 := by omega
    rw [e0, List.getD_cons_zero, List.length_cons]
    have c1 : (i < i + 1 ∧ i + 1 ≤ i + (rest.length + 1) ∧ flag = pol) ↔ (flag = pol) := by
      constructor
      · rintro ⟨-, -, h⟩; exact h
      · intro h; exact ⟨by omega, by omega, h⟩
    have c2 : (i + 1 = i + 1 ∧ flag = pol) ↔ (flag = pol) := by
      constructor
      · rintro ⟨-, h⟩; exact h
      · intro h; exact ⟨rfl, h⟩
    have c3 : ¬ (i + 1 < i + 1 ∧ i + 1 ≤ i + 1 + rest.length ∧
        rest.getD (i + 1 - (i + 1) - 1) (!pol) = pol) := by
      rintro ⟨h, -⟩; omega
    rw [if_congr c1 rfl rfl, if_congr c2 rfl rfl, if_neg c3]
    omega
  · rw [if_neg (show ¬ (p = i + 1 ∧ flag = pol) by rintro ⟨h, -⟩; exact hp1 h)]
    by_cases hlo : i + 1 < p
    · have hidx : p - i - 1 = (p - (i + 1) - 1) + 1 := by omega
      rw [List.length_cons, hidx, List.getD_cons_succ]
      have c1 : (i < p ∧ p ≤ i + (rest.length + 1) ∧
          rest.getD (p - (i + 1) - 1) (!pol) = pol) ↔
          (i + 1 < p ∧ p ≤ i + 1 + rest.length ∧
          rest.getD (p - (i + 1) - 1) (!pol) = pol) := by
        constructor
        · rintro ⟨-, h2, h3⟩; exact ⟨hlo, by omega, h3⟩
        · rintro ⟨-, h2, h3⟩; exact ⟨by omega, by omega, h3⟩
      rw [if_congr c1 rfl rfl, Nat.zero_add]
    · rw [if_neg (show ¬ (i < p ∧ p ≤ i + (flag :: rest).length ∧
          (flag :: rest).getD (p - i - 1) (!pol) = pol) by rintro ⟨h, -⟩; omega),
        if_neg (show ¬ (i + 1 < p ∧ p ≤ i + 1 + rest.length ∧
          rest.getD (p - (i + 1) - 1) (!pol) = pol) by rintro ⟨h, -⟩; omega)]

theorem compressRunsAux_cons (pol : Bool) (kind source : String) (flag : Bool)
    (rest : List Bool) (i start : Nat) :
    compressRunsAux pol kind source (flag :: rest) i start =
      (if flag ≠ pol ∧ (if flag = pol ∧ start = 0 then i + 1 else start) ≠ 0 then
        (⟨((if flag = pol ∧ start = 0 then i + 1 else start : Nat) : Int), (i : Int),
          "", kind, source⟩ : rangeInfo) ::
          compressRunsAux pol kind source rest (i + 1) 0
      else
        compressRunsAux pol kind source rest (i + 1)
          (if flag = pol ∧ start = 0 then i + 1 else start)) := rfl

theorem compressRunsAux_countP (pol : Bool) (kind source : String) (p : Nat) :
    ∀ (rest : List Bool) (i start : Nat), start = 0 ∨ (1 ≤ start ∧ start ≤ i) →
      (compressRunsAux pol kind source rest i start).countP (coversPos p) =
        (if start ≠ 0 ∧ start ≤ p ∧ p ≤ i then 1 else 0) + runHit pol rest i p := by
  intro rest
  induction rest with
  | nil =>
    intro i start hinv
    rw [runHit_nil]
    by_cases hs : start = 0
    · simp [compressRunsAux, hs]
    · simp only [compressRunsAux, if_pos hs, List.countP_cons, List.countP_nil,
        Nat.zero_add, Nat.add_zero]
      by_cases hc : start ≤ p ∧ p ≤ i
      · rw [if_pos ((coversPos_natCast p start i "" kind source).mpr hc),
          if_pos ⟨hs, hc.1, hc.2⟩]
      · rw [if_neg (fun h => hc ((coversPos_natCast p start i "" kind source).mp h)),
          if_neg (by rintro ⟨-, h1, h2⟩; exact hc ⟨h1, h2⟩)]
  | cons flag rest ih =>
    intro i start hinv
    rw [runHit_cons]
    by_cases hf : flag = pol
    · -- same polarity: the run opens or continues, nothing is emitted here
      have hfp : (p = i + 1 ∧ flag = pol) ↔ (p = i + 1) := by simp [hf]
      rw [if_congr hfp rfl rfl]
      by_cases hs : start = 0
      · have h1 : (if flag = pol ∧ start = 0 then i + 1 else start) = i + 1 :=
          if_pos ⟨hf, hs⟩
        rw [compressRunsAux_cons, h1, if_neg (by rintro ⟨hc, -⟩; exact hc hf),
          ih (i + 1) (i + 1) (Or.inr ⟨by omega, by omega⟩), hs]
        split_ifs <;> omega
      · have h1 : (if flag = pol ∧ start = 0 then i + 1 else start) = start := by
          rw [if_neg]; rintro ⟨-, h⟩; exact hs h
        rcases hinv with h0 | ⟨hss, hsi⟩
        · exact absurd h0 hs
        rw [compressRunsAux_cons, h1, if_neg (by rintro ⟨hc, -⟩; exact hc hf),
          ih (i + 1) start (Or.inr ⟨hss, by omega⟩)]
        split_ifs <;> omega
    · -- opposite polarity: an open run (if any) is emitted and closed
      have h1 : (if flag = pol ∧ start = 0 then i + 1 else start) = start := by
        rw [if_neg]; rintro ⟨h, -⟩; exact hf h
      have hfp : ¬ (p = i + 1 ∧ flag = pol) := by rintro ⟨-, h⟩; exact hf h
      rw [if_neg hfp, Nat.zero_add, compressRunsAux_cons, h1]
      by_cases hs : start = 0
      · rw [if_neg (show ¬ (flag ≠ pol ∧ start ≠ 0) by rintro ⟨-, h⟩; exact h hs),
          ih (i + 1) start (Or.inl hs), hs]
        split_ifs <;> omega
      · rw [if_pos ⟨hf, hs⟩, List.countP_cons, ih (i + 1) 0 (Or.inl rfl)]
        by_cases hc : start ≤ p ∧ p ≤ i
        · rw [if_pos ((coversPos_natCast p start i "" kind source).mpr hc)]
          split_ifs <;> omega
        · rw [if_neg (fun h => hc ((coversPos_natCast p start i "" kind source).mp h))]
          split_ifs <;> omega

theorem getD_indep {l : List Bool} {n : Nat} (h : n < l.length) (d1 d2 : Bool) :
    l.getD n d1 = l.getD n d2 := by
  rw [List.getD_eq_getElem?_getD, List.getD_eq_getElem?_getD,
    List.getElem?_eq_getElem h]
  rfl

/-- C4: the disorder runs and the ordered runs together cover every 1-indexed
position in `[1, len(mask)]` exactly once, and no position outside it. -/
theorem runs_partition_positions :
    ∀ (mask : List Bool) (p : Nat),
      (compressDisorder mask ++ orderedRanges mask).countP (coversPos p) =
        if 1 ≤ p ∧ p ≤ mask.length then 1 else 0 := by
  intro mask p
  rw [List.countP_append]
  unfold compressDisorder orderedRanges
  rw [compressRunsAux_countP true "disorder" "pLDDT" p mask 0 0 (Or.inl rfl),
    compressRunsAux_countP false "ordered" "pLDDT" p mask 0 0 (Or.inl rfl)]
  simp only [ne_eq, not_true_eq_false, false_and, if_false, Nat.zero_add]
  unfold runHit
  by_cases hp : 1 ≤ p ∧ p ≤ mask.length
  · have hidx : p - 0 - 1 < mask.length := by omega
    have e1 : mask.getD (p - 0 - 1) (!true) = mask.getD (p - 0 - 1) (!false) :=
      getD_indep hidx _ _
    rw [if_pos hp]
    cases hb : mask.getD (p - 0 - 1) (!false) with
    | true =>
      rw [if_pos (show 0 < p ∧ p ≤ 0 + mask.length ∧ mask.getD (p - 0 - 1) (!true) = true
          from ⟨by omega, by omega, e1.trans hb⟩),
        if_neg (show ¬ (0 < p ∧ p ≤ 0 + mask.length ∧ true = false)
          by rintro ⟨-, -, h⟩; exact Bool.noConfusion h)]
    | false =>
      rw [if_neg (show ¬ (0 < p ∧ p ≤ 0 + mask.length ∧ mask.getD (p - 0 - 1) (!true) = true)
          by rintro ⟨-, -, h⟩; rw [e1.trans hb] at h; exact Bool.noConfusion h),
        if_pos (show 0 < p ∧ p ≤ 0 + mask.length ∧ false = false
          from ⟨by omega, by omega, rfl⟩)]
  · rw [if_neg hp, if_neg (by rintro ⟨h1, h2, -⟩; omega),
      if_neg (by rintro ⟨h1, h2, -⟩; omega)]

/-- Go `strings.ToLower` (per-character lowering). -/
def toLowerStr (s : String) : String :=
  String.mk (s.data.map Char.toLower)

/-- `needle` is an initial segment of the second list. -/
def leadsWith : List Char → List Char → Bool
  | [], _ => true
  | _ :: _, [] => false
  | a :: as, b :: bs => a = b && leadsWith as bs

/-- Contiguous-substring test on character lists (Go `strings.Contains`). -/
def containsSub : List Char → List Char → Bool
  | [], needle => needle.isEmpty
  | h :: t, needle => leadsWith needle (h :: t) || containsSub t needle

def stringContains (s substr : String) : Bool :=
  containsSub s.data substr.data

/-- Go `addCandidate` closure inside `buildCandidates`: the state is the
`seen` key set plus the accumulated candidate list. -/
def addCandidate (minLength maxLength : Int)
    (st : List (Int × Int) × List candidate)
    (start fin : Int) (source name pdbID : String) :
    List (Int × Int) × List candidate :=
  if start ≤ 0 ∨ fin ≤ 0 ∨ start > fin then st
  else if fin - start + 1 < minLength then st
  else if maxLength > 0 ∧ fin - start + 1 > maxLength then st
  else if (start, fin) ∈ st.1 then st
  else ((start, fin) :: st.1,
    st.2 ++ [{ Start := start, End := fin, Source := source, Name := name,
               PDBID := pdbID, Score := 0, Rationale := [],
               Evidence := ⟨"", "", 0, 0⟩ }])

/-- First generation phase of Go `buildCandidates`: the user-supplied region. -/
def addUserRegion (minLength maxLength : Int) (regionRange : Option rangeInfo)
    (st : List (Int × Int) × List candidate) : List (Int × Int) × List candidate :=
  match regionRange with
  | some r => addCandidate minLength maxLength st r.Start r.End "user" "user_region" ""
  | none => st

/-- Second generation phase: domains matching the free-text filter
(case-insensitive substring; everything matches when no filter is given). -/
def addDomainCandidates (minLength maxLength : Int) (regionName : String)
    (domains : List rangeInfo) (st : List (Int × Int) × List candidate) :
    List (Int × Int) × List candidate :=
  domains.foldl (fun st domain =>
    if regionName ≠ "" ∧
        stringContains (toLowerStr domain.Name) (toLowerStr regionName) = false then st
    else addCandidate minLength maxLength st domain.Start domain.End "domain"
      domain.Name "") st

/-- Third generation phase: every deposited-structure range. -/
def addPDBCandidates (minLength maxLength : Int) (pdbRanges : List pdbRange)
    (st : List (Int × Int) × List candidate) : List (Int × Int) × List candidate :=
  pdbRanges.foldl (fun st pdb =>
    addCandidate minLength maxLength st pdb.Start pdb.End "pdb" pdb.ID pdb.ID) st

/-- Fourth generation phase: ordered segments, only when no region focus was
given. -/
def addOrderedCandidates (minLength maxLength : Int) (regionRange : Option rangeInfo)
    (regionName : String) (disordered : List Bool)
    (st : List (Int × Int) × List candidate) : List (Int × Int) × List candidate :=
  if regionRange.isNone ∧ regionName = "" then
    (orderedRanges disordered).foldl (fun st seg =>
      addCandidate minLength maxLength st seg.Start seg.End "ordered"
        "ordered_segment" "") st
  else st

/-- Go `buildCandidates`, with the mutable `(seen, candidates)` pair made
explicit as state threaded through the four generation phases. -/
def buildCandidates (sequence : String) (regionRange : Option rangeInfo)
    (regionName : String) (domains : List rangeInfo) (pdbRanges : List pdbRange)
    (disordered : List Bool) (minLength maxLength : Int) : List candidate :=
  (addOrderedCandidates minLength maxLength regionRange regionName disordered
    (addPDBCandidates minLength maxLength pdbRanges
      (addDomainCandidates minLength maxLength regionName domains
        (addUserRegion minLength maxLength regionRange ([], []))))).2

def candKey (c : candidate) : Int × Int :=
  (c.Start, c.End)

def goodCandidate (minLength maxLength : Int) (c : candidate) : Prop :=
  1 ≤ c.Start ∧ c.Start ≤ c.End ∧ minLength ≤ c.End - c.Start + 1 ∧
    (0 < maxLength → c.End - c.Start + 1 ≤ maxLength)

def candStateInv (minLength maxLength : Int)
    (st : List (Int × Int) × List candidate) : Prop :=
  (∀ c ∈ st.2, goodCandidate minLength maxLength c) ∧
  (st.2.map candKey).Nodup ∧
  (∀ c ∈ st.2, candKey c ∈ st.1)

theorem addCandidate_inv {minLength maxLength : Int}
    {st : List (Int × Int) × List candidate}
    (start fin : Int) (source name pdbID : String)
    (h : candStateInv minLength maxLength st) :
    candStateInv minLength maxLength
      (addCandidate minLength maxLength st start fin source name pdbID) := by
  obtain ⟨hg, hnd, hk⟩ := h
  unfold addCandidate
  split_ifs with h1 h2 h3 h4
  · exact ⟨hg, hnd, hk⟩
  · exact ⟨hg, hnd, hk⟩
  · exact ⟨hg, hnd, hk⟩
  · exact ⟨hg, hnd, hk⟩
  refine ⟨?_, ?_, ?_⟩
  · intro c hc
    rw [List.mem_append] at hc
    rcases hc with hc | hc
    · exact hg c hc
    · rw [List.mem_singleton] at hc
      subst hc
      unfold goodCandidate
      dsimp only
      exact ⟨by omega, by omega, by omega, fun hM => by omega⟩
  · rw [List.map_append, List.nodup_append]
    refine ⟨hnd, List.nodup_singleton _, ?_⟩
    intro a ha hb
    rw [List.mem_map] at ha
    obtain ⟨c, hc, hkey⟩ := ha
    rw [List.map_singleton, List.mem_singleton] at hb
    apply h4
    have hck : candKey c = (start, fin) := by rw [hkey, hb]; rfl
    rw [← hck]
    exact hk c hc
  · intro c hc
    rw [List.mem_append] at hc
    rcases hc with hc | hc
    · exact List.mem_cons_of_mem _ (hk c hc)
    · rw [List.mem_singleton] at hc
      subst hc
      exact List.mem_cons_self _ _

theorem foldl_inv {β : Type} (P : List (Int × Int) × List candidate → Prop)
    (f : (List (Int × Int) × List candidate) → β →
      (List (Int × Int) × List candidate))
    (hf : ∀ st b, P st → P (f st b)) :
    ∀ (l : List β) (st), P st → P (l.foldl f st) := by
  intro l
  induction l with
  | nil => intro st h; exact h
  | cons b l ih => intro st h; exact ih _ (hf st b h)

theorem addUserRegion_inv {minLength maxLength : Int} (regionRange : Option rangeInfo)
    {st : List (Int × Int) × List candidate}
    (h : candStateInv minLength maxLength st) :
    candStateInv minLength maxLength
      (addUserRegion minLength maxLength regionRange st) := by
  unfold addUserRegion
  cases regionRange with
  | none => exact h
  | some r => exact addCandidate_inv _ _ _ _ _ h

theorem addDomainCandidates_inv {minLength maxLength : Int} (regionName : String)
    (domains : List rangeInfo) {st : List (Int × Int) × List candidate}
    (h : candStateInv minLength maxLength st) :
    candStateInv minLength maxLength
      (addDomainCandidates minLength maxLength regionName domains st) := by
  unfold addDomainCandidates
  apply foldl_inv _ _ ?_ _ _ h
  intro st' d h'
  split
  · exact h'
  · exact addCandidate_inv _ _ _ _ _ h'

theorem addPDBCandidates_inv {minLength maxLength : Int}
    (pdbRanges : List pdbRange) {st : List (Int × Int) × List candidate}
    (h : candStateInv minLength maxLength st) :
    candStateInv minLength maxLength
      (addPDBCandidates minLength maxLength pdbRanges st) := by
  unfold addPDBCandidates
  exact foldl_inv _ _ (fun st' p h' => addCandidate_inv _ _ _ _ _ h') _ _ h

theorem addOrderedCandidates_inv {minLength maxLength : Int}
    (regionRange : Option rangeInfo) (regionName : String) (disordered : List Bool)
    {st : List (Int × Int) × List candidate}
    (h : candStateInv minLength maxLength st) :
    candStateInv minLength maxLength
      (addOrderedCandidates minLength maxLength regionRange regionName disordered st) := by
  unfold addOrderedCandidates
  split
  · exact foldl_inv _ _ (fun st' s h' => addCandidate_inv _ _ _ _ _ h') _ _ h
  · exact h

/-- C5: every generated candidate has `start ≥ 1`, `start ≤ end`, length at
least `minLength`, length at most `maxLength` when `maxLength > 0`, and no
two candidates share the same `(start, end)` key. -/
theorem buildCandidates_invariants :
    ∀ (sequence : String) (regionRange : Option rangeInfo) (regionName : String)
      (domains : List rangeInfo) (pdbRanges : List pdbRange) (disordered : List Bool)
      (minLength maxLength : Int),
      (∀ c ∈ buildCandidates sequence regionRange regionName domains pdbRanges
          disordered minLength maxLength,
        1 ≤ c.Start ∧ c.Start ≤ c.End ∧ minLength ≤ c.End - c.Start + 1 ∧
          (0 < maxLength → c.End - c.Start + 1 ≤ maxLength)) ∧
      ((buildCandidates sequence regionRange regionName domains pdbRanges
          disordered minLength maxLength).map candKey).Nodup := by
  intro sequence regionRange regionName domains pdbRanges disordered minLength maxLength
  have h0 : candStateInv minLength maxLength ([], []) := by
    refine ⟨?_, ?_, ?_⟩ <;> simp [candStateInv]
  have hfin := addOrderedCandidates_inv regionRange regionName disordered
    (addPDBCandidates_inv pdbRanges
      (addDomainCandidates_inv regionName domains
        (addUserRegion_inv regionRange h0)))
  exact ⟨hfin.1, hfin.2.1⟩

theorem buildCandidates_invariants_witness :
    ((⟨10, 200, "user", "user_region", "", 0, [], ⟨"", "", 0, 0⟩⟩ : candidate) ∈
        buildCandidates "" (some ⟨10, 200, "", "user_region", "user"⟩) "" [] [] [] 50 0) ∧
    (1 ≤ (10 : Int) ∧ (10 : Int) ≤ 200 ∧ (50 : Int) ≤ 200 - 10 + 1 ∧
      ((0 : Int) < 0 → 200 - 10 + 1 ≤ 0)) ∧
    ((buildCandidates "" (some ⟨10, 200, "", "user_region", "user"⟩) "" [] [] [] 50 0).map
        candKey).Nodup :=
  ⟨List.mem_singleton.mpr rfl,
   by
    have h := (buildCandidates_invariants "" (some ⟨10, 200, "", "user_region", "user"⟩)
      "" [] [] [] 50 0).1
      (⟨10, 200, "user", "user_region", "", 0, [], ⟨"", "", 0, 0⟩⟩ : candidate)
      (List.mem_singleton.mpr rfl)
    simpa using h,
   (buildCandidates_invariants "" (some ⟨10, 200, "", "user_region", "user"⟩) "" [] [] []
      50 0).2⟩

def defaultMinLength : Int := 100

/-- `main`'s normalization of the `--min-length` flag before candidate
generation: nonpositive values are silently replaced by the default. -/
def effectiveMinLength (minLength : Int) : Int :=
  if minLength ≤ 0 then defaultMinLength else minLength

/-- Candidate generation as `main` invokes it, i.e. after flag normalization. -/
def mainCandidates (sequence : String) (regionRange : Option rangeInfo)
    (regionName : String) (domains : List rangeInfo) (pdbRanges : List pdbRange)
    (disordered : List Bool) (minLengthFlag maxLength : Int) : List candidate :=
  buildCandidates sequence regionRange regionName domains pdbRanges disordered
    (effectiveMinLength minLengthFlag) maxLength

/-- C10: a zero or negative `--min-length` flag is silently replaced by the
default minimum length 100 before candidate filtering. -/
theorem min_length_default_substitution :
    ∀ (minLengthFlag : Int), minLengthFlag ≤ 0 →
      effectiveMinLength minLengthFlag = 100 ∧
      ∀ (sequence : String) (regionRange : Option rangeInfo) (regionName : String)
        (domains : List rangeInfo) (pdbRanges : List pdbRange)
        (disordered : List Bool) (maxLength : Int),
        mainCandidates sequence regionRange regionName domains pdbRanges disordered
            minLengthFlag maxLength =
          buildCandidates sequence regionRange regionName domains pdbRanges disordered
            100 maxLength := by
  intro m hm
  have he : effectiveMinLength m = 100 := by
    unfold effectiveMinLength defaultMinLength
    rw [if_pos hm]
  refine ⟨he, ?_⟩
  intro sequence regionRange regionName domains pdbRanges disordered maxLength
  unfold mainCandidates
  rw [he]

theorem min_length_default_substitution_witness :
    effectiveMinLength (-5) = 100 ∧
    mainCandidates "" (some ⟨1, 150, "", "user_region", "user"⟩) "" [] [] [] (-5) 0 =
      buildCandidates "" (some ⟨1, 150, "", "user_region", "user"⟩) "" [] [] [] 100 0 :=
  ⟨(min_length_default_substitution (-5) (by norm_num)).1,
   (min_length_default_substitution (-5) (by norm_num)).2 ""
     (some ⟨1, 150, "", "user_region", "user"⟩) "" [] [] [] 0⟩

/-- Go `isDisorderTransition`: an order→disorder boundary at a start, a
disorder→order boundary at an end, or a sequence edge adjacent to order. -/
def isDisorderTransition (pos : Int) (side : String) (disorder : List Bool) : Bool :=
  if disorder.length = 0 ∨ pos ≤ 0 ∨ pos > (disorder.length : Int) then false
  else
    let idx := (pos - 1).toNat
    if side = "start" then
      if disorder.getD idx false then false
      else if idx = 0 then true
      else disorder.getD (idx - 1) false
    else
      if disorder.getD idx false then false
      else if idx = disorder.length - 1 then true
      else disorder.getD (idx + 1) false

/-- Go `isDomainBoundary`: within 3 residues of a domain start or end. -/
def isDomainBoundary (pos : Int) (domains : List rangeInfo) : Bool :=
  domains.any (fun domain =>
    decide ((pos - domain.Start).natAbs ≤ 3 ∨ (pos - domain.End).natAbs ≤ 3))

/-- Go `matchesPDBBoundary`: within 3 residues of a structure-range start or
end. -/
def matchesPDBBoundary (pos : Int) (pdbRanges : List pdbRange) : Bool :=
  pdbRanges.any (fun pdb =>
    decide ((pos - pdb.Start).natAbs ≤ 3 ∨ (pos - pdb.End).natAbs ≤ 3))

/-- Go `hasStructuredSide`: the construct-interior side of the boundary has
average confidence above 70. -/
def hasStructuredSide (pos : Int) (side : String) (plddt : List ℚ) : Bool :=
  if plddt.length = 0 then false
  else if side = "start" then
    decide (avgWindow plddt (pos - 1) (min ((plddt.length : Int) - 1) (pos + 8)) > 70)
  else
    decide (avgWindow plddt (max 0 (pos - 10)) (pos - 1) > 70)

/-- Go `withinRanges`. -/
def withinRanges (pos : Int) (ranges : List rangeInfo) : Bool :=
  ranges.any (fun r => decide (pos ≥ r.Start ∧ pos ≤ r.End))

/-- Go `withinPositions`. -/
def withinPositions (pos : Int) (positions : List Int) (buffer : Int) : Bool :=
  positions.any (fun p => decide (((pos - p).natAbs : Int) ≤ buffer))

/-- Go `boundaryScore`: signed sum of the triggered signals, clamped to
`[0, 100]`, plus the list of triggered rationale strings. -/
def boundaryScore (pos : Int) (side : String) (ctx : boundaryContext) :
    ℚ × List String :=
  let t1 := isDisorderTransition pos side ctx.Disorder
  let t2 := isDomainBoundary pos ctx.DomainRanges
  let t3 := isLoopRegion pos ctx.PLDDT
  let t4 := hasStructuredSide pos side ctx.PLDDT
  let t5 := matchesPDBBoundary pos ctx.PDBRanges
  let t6 := withinRanges pos ctx.HelixRanges || withinRanges pos ctx.StrandRanges
  let t7 := withinRanges pos ctx.ActiveSites
  let t8 := withinPositions pos ctx.PTMPositions 5
  let score : ℚ :=
    (if t1 then 30 else 0) + (if t2 then 25 else 0) + (if t3 then 20 else 0) +
    (if t4 then 15 else 0) + (if t5 then 10 else 0) - (if t6 then 50 else 0) -
    (if t7 then 100 else 0) - (if t8 then 20 else 0)
  let rationale : List String :=
    (if t1 then ["disorder transition"] else []) ++
    (if t2 then ["domain boundary"] else []) ++
    (if t3 then ["loop-like region"] else []) ++
    (if t4 then ["high pLDDT side"] else []) ++
    (if t5 then ["PDB boundary"] else []) ++
    (if t6 then ["cuts secondary structure"] else []) ++
    (if t7 then ["near active site"] else []) ++
    (if t8 then ["near PTM site"] else [])
  (clamp score 0 100, rationale)

/-- Comparator of the stable sort inside Go `scoreCandidates`
(score descending). -/
def scoreRel : candidate → candidate → Prop := fun a b => b.Score ≤ a.Score

instance : DecidableRel scoreRel :=
  fun a b => inferInstanceAs (Decidable (b.Score ≤ a.Score))

/-- Go `scoreCandidates`: fill score, rationale and evidence of every
candidate, then sort by score descending (Go uses `sort.SliceStable`;
insertion sort realizes the same contract). -/
def scoreCandidates (cands : List candidate) (ctx : boundaryContext)
    (minLength maxLength : Int) : List candidate :=
  let scored := cands.map (fun c =>
    let s := boundaryScore c.Start "start" ctx
    let e := boundaryScore c.End "end" ctx
    { c with Score := (s.1 + e.1) / 2,
             Rationale := s.2 ++ e.2,
             Evidence := { c.Evidence with
                           Domain := if c.Name ≠ "" ∧ c.Source = "domain" then c.Name
                             else c.Evidence.Domain,
                           PDBMatch := if c.PDBID ≠ "" then c.PDBID
                             else c.Evidence.PDBMatch } })
  List.insertionSort scoreRel scored

/-- Comparator of the final sort in `main`: score descending, ties broken by
ascending candidate length (this is the non-strict total order whose sorted
lists are exactly the lists the Go strict comparator can produce). -/
def rankRel : candidate → candidate → Prop := fun a b =>
  a.Score > b.Score ∨ (a.Score = b.Score ∧ a.Length ≤ b.Length)

instance : DecidableRel rankRel :=
  fun a b => inferInstanceAs
    (Decidable (a.Score > b.Score ∨ (a.Score = b.Score ∧ a.Length ≤ b.Length)))

instance : IsTotal candidate rankRel :=
  ⟨fun a b => by
    unfold rankRel
    rcases lt_trichotomy a.Score b.Score with h | h | h
    · exact Or.inr (Or.inl h)
    · rcases le_total a.Length b.Length with hl | hl
      · exact Or.inl (Or.inr ⟨h, hl⟩)
      · exact Or.inr (Or.inr ⟨h.symm, hl⟩)
    · exact Or.inl (Or.inl h)⟩

instance : IsTrans candidate rankRel :=
  ⟨fun a b c hab hbc => by
    unfold rankRel at hab hbc ⊢
    rcases hab with h1 | ⟨h1, l1⟩ <;> rcases hbc with h2 | ⟨h2, l2⟩
    · exact Or.inl (lt_trans h2 h1)
    · exact Or.inl (by rw [← h2]; exact h1)
    · exact Or.inl (by rw [h1]; exact h2)
    · exact Or.inr ⟨h1.trans h2, le_trans l1 l2⟩⟩

/-- The sort-then-truncate step at the end of Go `main`. -/
def finalRanked (scored : List candidate) : List candidate :=
  let sorted := List.insertionSort rankRel scored
  if sorted.length > 10 then sorted.take 10 else sorted

/-- Scoring followed by ranking, as `main` composes them. -/
def finalOutput (cands : List candidate) (ctx : boundaryContext)
    (minLength maxLength : Int) : List candidate :=
  finalRanked (scoreCandidates cands ctx minLength maxLength)

theorem clamp_bounds (v : ℚ) : 0 ≤ clamp v 0 100 ∧ clamp v 0 100 ≤ 100 := by
  unfold clamp
  split_ifs <;> constructor <;> linarith

theorem boundaryScore_fst_bounds (pos : Int) (side : String) (ctx : boundaryContext) :
    0 ≤ (boundaryScore pos side ctx).1 ∧ (boundaryScore pos side ctx).1 ≤ 100 := by
  unfold boundaryScore
  dsimp only
  exact clamp_bounds _

theorem finalRanked_mem {c : candidate} {l : List candidate}
    (hc : c ∈ finalRanked l) : c ∈ l := by
  unfold finalRanked at hc
  dsimp only at hc
  split_ifs at hc with h
  · exact (List.mem_insertionSort rankRel).mp (List.take_subset _ _ hc)
  · exact (List.mem_insertionSort rankRel).mp hc

/-- C1: every candidate in the final output has a score in `[0, 100]` equal
to the average of the clamped start-boundary and end-boundary scores. -/
theorem score_avg_of_clamped_boundaries :
    ∀ (cands : List candidate) (ctx : boundaryContext) (minLength maxLength : Int)
      (c : candidate), c ∈ finalOutput cands ctx minLength maxLength →
      0 ≤ c.Score ∧ c.Score ≤ 100 ∧
      c.Score = ((boundaryScore c.Start "start" ctx).1 +
        (boundaryScore c.End "end" ctx).1) / 2 := by
  intro cands ctx minLength maxLength c hc
  have hc1 : c ∈ scoreCandidates cands ctx minLength maxLength := finalRanked_mem hc
  unfold scoreCandidates at hc1
  dsimp only at hc1
  rw [List.mem_insertionSort, List.mem_map] at hc1
  obtain ⟨c0, hc0, rfl⟩ := hc1
  dsimp only
  obtain ⟨hs0, hs1⟩ := boundaryScore_fst_bounds c0.Start "start" ctx
  obtain ⟨he0, he1⟩ := boundaryScore_fst_bounds c0.End "end" ctx
  refine ⟨by linarith, by linarith, rfl⟩

def sampleCandidate : candidate :=
  ⟨1, 120, "user", "user_region", "", 0, [], ⟨"", "", 0, 0⟩⟩

def sampleContext : boundaryContext :=
  ⟨200, [], [], [], [], [], [], [], []⟩

theorem score_avg_of_clamped_boundaries_witness :
    (sampleCandidate ∈ finalOutput [sampleCandidate] sampleContext 100 0) ∧
    (0 ≤ sampleCandidate.Score ∧ sampleCandidate.Score ≤ 100 ∧
      sampleCandidate.Score =
        ((boundaryScore sampleCandidate.Start "start" sampleContext).1 +
          (boundaryScore sampleCandidate.End "end" sampleContext).1) / 2) := by
  have hmem : sampleCandidate ∈ finalOutput [sampleCandidate] sampleContext 100 0 := by
    simp [sampleCandidate, sampleContext, finalOutput, finalRanked, scoreCandidates,
      boundaryScore, isDisorderTransition, isDomainBoundary, isLoopRegion,
      hasStructuredSide, matchesPDBBoundary, withinRanges, withinPositions, clamp,
      avgWindow, List.insertionSort]
    norm_num
  exact ⟨hmem, score_avg_of_clamped_boundaries [sampleCandidate] sampleContext 100 0
    sampleCandidate hmem⟩

/-- C6: the final ranked list is sorted by score descending with ties broken
by non-decreasing candidate length, and retains at most 10 candidates. -/
theorem final_ranking_sorted_top10 :
    ∀ (scored : List candidate),
      (finalRanked scored).length ≤ 10 ∧
      List.Chain'
        (fun u v => u.Score > v.Score ∨ (u.Score = v.Score ∧ u.Length ≤ v.Length))
        (finalRanked scored) := by
  intro scored
  unfold finalRanked
  dsimp only
  have hs : List.Sorted rankRel (List.insertionSort rankRel scored) :=
    List.sorted_insertionSort rankRel scored
  constructor
  · split_ifs with h
    · simp [List.length_take]
    · omega
  · split_ifs with h
    · have hp : List.Pairwise rankRel ((List.insertionSort rankRel scored).take 10) :=
        List.Pairwise.sublist (List.take_sublist _ _) hs
      exact hp.chain'
    · exact List.Pairwise.chain' hs

/-- One nanosecond is the unit of Go `time.Duration`; `time.Hour` in ns. -/
def hourNS : Int := 3600 * 1000000000

/-- Go `cacheTTL = 30 * 24 * time.Hour`. -/
def cacheTTL : Int := 30 * 24 * hourNS

def dayNS : Int := 24 * hourNS

/-- Go `cacheEntry` as stored on disk (the payload is opaque bytes). -/
structure cacheEntry where
  FetchedAt : Int
  Payload : String
deriving DecidableEq, Repr

/-- The cache directory: a missing or undecodable file is `none`. -/
def CacheStore : Type := String → Option cacheEntry

/-- Go `readCache`: a hit only when the record exists, decodes, and
`now - fetched_at ≤ cacheTTL`. -/
def readCache (store : CacheStore) (now : Int) (path : String) : Option String :=
  match store path with
  | none => none
  | some entry => if now - entry.FetchedAt > cacheTTL then none else some entry.Payload

/-- Go `writeCache`: overwrite the record at `path` with the current time. -/
def writeCache (store : CacheStore) (now : Int) (path : String)
    (payload : String) : CacheStore :=
  fun p => if p = path then some ⟨now, payload⟩ else store p

/-- Go `fetchWithCache`: on hit return the stored payload without fetching;
on miss invoke the fetch and best-effort persist its result (a persistence
failure leaves the store unchanged, which the same function also models by
passing the old store). The middle component records whether the fetch
function was invoked. -/
def fetchWithCache (store : CacheStore) (now : Int) (path : String)
    (fetchResult : Except String String) :
    Except String String × Bool × CacheStore :=
  match readCache store now path with
  | some payload => (Except.ok payload, false, store)
  | none =>
    match fetchResult with
    | Except.error e => (Except.error e, true, store)
    | Except.ok payload => (Except.ok payload, true, writeCache store now path payload)

/-- C8: a record written at time `T` is a hit with the original payload at any
read time up to `T + 30 days` (hence in particular at `T + 29 days`) and the
fetch function is not invoked; at `T + 31 days` the read misses and
`getOrFetch` invokes the fetch function again. -/
theorem cache_ttl_hit_and_expiry :
    ∀ (store : CacheStore) (path : String) (T d : Int) (payload : String)
      (fetchResult : Except String String),
      (d ≤ 30 * dayNS →
        readCache (writeCache store T path payload) (T + d) path = some payload ∧
        (fetchWithCache (writeCache store T path payload) (T + d) path
          fetchResult).1 = Except.ok payload ∧
        (fetchWithCache (writeCache store T path payload) (T + d) path
          fetchResult).2.1 = false) ∧
      (readCache (writeCache store T path payload) (T + 31 * dayNS) path = none ∧
        (fetchWithCache (writeCache store T path payload) (T + 31 * dayNS) path
          fetchResult).2.1 = true) := by
  intro store path T d payload fetchResult
  have httl : cacheTTL = 30 * dayNS := by
    unfold cacheTTL dayNS
    ring
  have hwr : writeCache store T path payload path = some ⟨T, payload⟩ := by
    unfold writeCache
    rw [if_pos rfl]
  constructor
  · intro hd
    have hread : readCache (writeCache store T path payload) (T + d) path =
        some payload := by
      unfold readCache
      rw [hwr]
      dsimp only
      rw [if_neg (by rw [httl]; omega)]
    refine ⟨hread, ?_, ?_⟩ <;> · unfold fetchWithCache; rw [hread]
  · have hread : readCache (writeCache store T path payload) (T + 31 * dayNS) path =
        none := by
      unfold readCache
      rw [hwr]
      dsimp only
      rw [if_pos ?_]
      rw [httl]
      have hpos : 0 < dayNS := by unfold dayNS hourNS; norm_num
      omega
    refine ⟨hread, ?_⟩
    unfold fetchWithCache
    rw [hread]
    cases fetchResult <;> rfl

theorem cache_ttl_hit_and_expiry_witness :
    ((29 : Int) * dayNS ≤ 30 * dayNS ∧
      readCache (writeCache (fun _ => none) 0 "alphafold/p12345" "payload")
        (0 + 29 * dayNS) "alphafold/p12345" = some "payload") ∧
    readCache (writeCache (fun _ => none) 0 "alphafold/p12345" "payload")
      (0 + 31 * dayNS) "alphafold/p12345" = none :=
  ⟨⟨by unfold dayNS hourNS; norm_num,
    ((cache_ttl_hit_and_expiry (fun _ => none) "alphafold/p12345" 0 (29 * dayNS)
      "payload" (Except.error "network down")).1
      (by unfold dayNS hourNS; norm_num)).1⟩,
   (cache_ttl_hit_and_expiry (fun _ => none) "alphafold/p12345" 0 (29 * dayNS)
      "payload" (Except.error "network down")).2.1⟩

/-- What one attempt of Go `httpGet` observes: a transport error from
`client.Get`, a body-read error from `io.ReadAll`, or a response with a
status code and a body (returned after transparent gzip decompression, which
is not modelled further since no claim depends on it). -/
inductive fetchOutcome where
  | netErr (msg : String)
  | readErr (msg : String)
  | resp (status : Int) (body : String)
deriving DecidableEq, Repr

/-- The two error shapes Go `httpGet` can return: the immediate
`resource not found` error for a 404, or the last retained error once the
three attempts are exhausted. -/
inductive fetchError where
  | notFound
  | exhausted (lastErr : Option String)
deriving DecidableEq, Repr

/-- The error string an attempt leaves in `lastErr` when it is retried. -/
def lastErrOf : fetchOutcome → Option String
  | fetchOutcome.netErr m => some m
  | fetchOutcome.readErr m => some m
  | fetchOutcome.resp status _ => some ("http status " ++ toString status)

/-- An attempt outcome that Go `httpGet` retries: a transport error, a read
error, or a response whose status is neither 404 nor 2xx. -/
def retryAttempt : fetchOutcome → Bool
  | fetchOutcome.netErr _ => true
  | fetchOutcome.readErr _ => true
  | fetchOutcome.resp status _ =>
      decide (status ≠ 404) && (decide (status < 200) || decide (300 ≤ status))

/-- The retry loop of Go `httpGet` over a fixed schedule of attempt outcomes
(`outcomes n` is what attempt `n` would observe); returns the result together
with the number of attempts actually made. The sleeps are irrelevant to the
result and are not modelled. -/
def httpGetLoop (outcomes : Nat → fetchOutcome) :
    Nat → Nat → Option String → Except fetchError String × Nat
  | 0, attempt, lastErr => (Except.error (fetchError.exhausted lastErr), attempt)
  | remaining + 1, attempt, lastErr =>
    match outcomes attempt with
    | fetchOutcome.netErr m => httpGetLoop outcomes remaining (attempt + 1) (some m)
    | fetchOutcome.readErr m => httpGetLoop outcomes remaining (attempt + 1) (some m)
    | fetchOutcome.resp status body =>
      if status = 404 then (Except.error fetchError.notFound, attempt + 1)
      else if status < 200 ∨ 300 ≤ status then
        httpGetLoop outcomes remaining (attempt + 1)
          (some ("http status " ++ toString status))
      else (Except.ok body, attempt + 1)

/-- Go `httpGet`: at most 3 attempts starting from attempt 0 with no retained
error. -/
def httpGet (outcomes : Nat → fetchOutcome) : Except fetchError String × Nat :=
  httpGetLoop outcomes 3 0 none

theorem httpGetLoop_attempts_le (outcomes : Nat → fetchOutcome) :
    ∀ (remaining attempt : Nat) (lastErr : Option String),
      (httpGetLoop outcomes remaining attempt lastErr).2 ≤ attempt + remaining := by
  intro remaining
  induction remaining with
  | zero => intro attempt lastErr; simp [httpGetLoop]
  | succ n ih =>
    intro attempt lastErr
    rw [httpGetLoop]
    cases outcomes attempt with
    | netErr m => exact le_trans (ih (attempt + 1) (some m)) (by omega)
    | readErr m => exact le_trans (ih (attempt + 1) (some m)) (by omega)
    | resp status body =>
      dsimp only
      split_ifs with h1 h2
      · simp
      · exact le_trans (ih (attempt + 1) _) (by omega)
      · simp

theorem httpGetLoop_retry_step (outcomes : Nat → fetchOutcome)
    (remaining attempt : Nat) (lastErr : Option String)
    (h : retryAttempt (outcomes attempt) = true) :
    httpGetLoop outcomes (remaining + 1) attempt lastErr =
      httpGetLoop outcomes remaining (attempt + 1) (lastErrOf (outcomes attempt)) := by
  rw [httpGetLoop]
  cases ho : outcomes attempt with
  | netErr m => rfl
  | readErr m => rfl
  | resp status body =>
    rw [ho] at h
    unfold retryAttempt at h
    rw [Bool.and_eq_true, Bool.or_eq_true, decide_eq_true_eq, decide_eq_true_eq,
      decide_eq_true_eq] at h
    dsimp only
    rw [if_neg h.1, if_pos h.2]
    rfl

theorem httpGetLoop_404 (outcomes : Nat → fetchOutcome)
    (remaining attempt : Nat) (lastErr : Option String) (body : String)
    (h : outcomes attempt = fetchOutcome.resp 404 body) :
    httpGetLoop outcomes (remaining + 1) attempt lastErr =
      (Except.error fetchError.notFound, attempt + 1) := by
  rw [httpGetLoop, h]
  dsimp only
  rw [if_pos rfl]

/-- C9: `httpGet` makes at most 3 attempts; a 404 reached after only
retryable attempts returns the distinct not-found error immediately, with no
further attempts; and when all 3 attempts are retryable failures, the error
retained from the last attempt is returned. -/
theorem httpGet_retry_policy :
    ∀ (outcomes : Nat → fetchOutcome),
      (httpGet outcomes).2 ≤ 3 ∧
      (∀ (k : Nat), k < 3 → (∀ j, j < k → retryAttempt (outcomes j) = true) →
        ∀ (body : String), outcomes k = fetchOutcome.resp 404 body →
          httpGet outcomes = (Except.error fetchError.notFound, k + 1)) ∧
      ((∀ j, j < 3 → retryAttempt (outcomes j) = true) →
        httpGet outcomes =
          (Except.error (fetchError.exhausted (lastErrOf (outcomes 2))), 3)) := by
  intro outcomes
  refine ⟨?_, ?_, ?_⟩
  · exact le_trans (httpGetLoop_attempts_le outcomes 3 0 none) (by omega)
  · intro k hk hretry body h404
    interval_cases k
    · exact httpGetLoop_404 outcomes 2 0 none body h404
    · unfold httpGet
      rw [httpGetLoop_retry_step outcomes 2 0 none (hretry 0 (by omega)),
        httpGetLoop_404 outcomes 1 1 _ body h404]
    · unfold httpGet
      rw [httpGetLoop_retry_step outcomes 2 0 none (hretry 0 (by omega)),
        httpGetLoop_retry_step outcomes 1 1 _ (hretry 1 (by omega)),
        httpGetLoop_404 outcomes 0 2 _ body h404]
  · intro hretry
    unfold httpGet
    rw [httpGetLoop_retry_step outcomes 2 0 none (hretry 0 (by omega)),
      httpGetLoop_retry_step outcomes 1 1 _ (hretry 1 (by omega)),
      httpGetLoop_retry_step outcomes 0 2 _ (hretry 2 (by omega))]
    rfl

theorem httpGet_retry_policy_witness :
    ((httpGet (fun n => if n = 0 then fetchOutcome.netErr "connection refused"
        else fetchOutcome.resp 404 "missing")).2 ≤ 3) ∧
    (httpGet (fun n => if n = 0 then fetchOutcome.netErr "connection refused"
        else fetchOutcome.resp 404 "missing") =
      (Except.error fetchError.notFound, 2)) :=
  ⟨(httpGet_retry_policy (fun n => if n = 0 then fetchOutcome.netErr "connection refused"
      else fetchOutcome.resp 404 "missing")).1,
   (httpGet_retry_policy (fun n => if n = 0 then fetchOutcome.netErr "connection refused"
      else fetchOutcome.resp 404 "missing")).2.1 1 (by omega)
      (by intro j hj
          have hj0 : j = 0 := by omega
          rw [hj0]
          rfl)
      "missing" rfl⟩
